import Mathlib

/-!
Shallow embedding of the geometry / rendering core of `gcode-text`
(files `gcode_draw.py`, `gcode_font.py`, `gcode_text.py`, `gcode-text.py`).

Real arithmetic in the source (Python floats) is modelled exactly over `ℚ`.
Python operations that can raise (`ZeroDivisionError`, `AttributeError`,
exhaustion of the opcode stream, unknown opcodes) are modelled with `Option`
or an explicit result constructor, as noted at each definition.
-/

namespace GcodeText

/-- `Point` from `gcode_draw.py` (same class repeated in `gcode_text.py`). -/
structure Point where
  x : ℚ
  y : ℚ
deriving DecidableEq

/-- `Point.lerp_half`: the point midway between `self` and `o`. -/
def Point.lerp_half (p o : Point) : Point :=
  Point.mk (p.x + (o.x - p.x) / 2) (p.y + (o.y - p.y) / 2)

/-- `Rect` from `gcode_draw.py`: axis-aligned box given by two corners. -/
structure Rect where
  top_left : Point
  bottom_right : Point
deriving DecidableEq

/-- `Matrix` from `gcode_draw.py`: 2×2 linear part plus translation. -/
structure Matrix where
  xx : ℚ
  xy : ℚ
  x0 : ℚ
  yx : ℚ
  yy : ℚ
  y0 : ℚ
deriving DecidableEq

/-- `Matrix.__init__` defaults: the identity transform. -/
def Matrix.id : Matrix := Matrix.mk 1 0 0 0 1 0

/-- `Matrix.__mul__` from `gcode_draw.py`. -/
def Matrix.mul (m o : Matrix) : Matrix :=
  Matrix.mk
    (m.xx * o.xx + m.yx * o.xy)
    (m.xy * o.xx + m.yy * o.xy)
    (m.x0 * o.xx + m.y0 * o.xy + o.x0)
    (m.xx * o.yx + m.yx * o.yy)
    (m.xy * o.yx + m.yy * o.yy)
    (m.x0 * o.yx + m.y0 * o.yy + o.y0)

/-- `Matrix.translate`: `Matrix(x0=tx, y0=ty) * self`. -/
def Matrix.translate (m : Matrix) (tx ty : ℚ) : Matrix :=
  (Matrix.mk 1 0 tx 0 1 ty).mul m

/-- `Matrix.scale`: `Matrix(xx=sx, yy=sy) * self`. -/
def Matrix.scale (m : Matrix) (sx sy : ℚ) : Matrix :=
  (Matrix.mk sx 0 0 0 sy 0).mul m

/-- `Matrix.sheer`: `Matrix(yx=sx, xy=sy) * self`. -/
def Matrix.sheer (m : Matrix) (sx sy : ℚ) : Matrix :=
  (Matrix.mk 1 sy 0 sx 1 0).mul m

/-- `Matrix.point`: apply the full affine map to a point. -/
def Matrix.point (m : Matrix) (p : Point) : Point :=
  Point.mk (m.xx * p.x + m.yx * p.y + m.x0) (m.xy * p.x + m.yy * p.y + m.y0)

/-- `Matrix.distance`: apply only the linear part (no translation). -/
def Matrix.distance (m : Matrix) (p : Point) : Point :=
  Point.mk (m.xx * p.x + m.yx * p.y) (m.xy * p.x + m.yy * p.y)

/-- C9: for every matrix `M` and point `p`, the componentwise difference
`M.point(p) - M.point(Point(0,0))` equals `M.distance(p)`: `distance` is
exactly the linear part of the affine map, with no translation. -/
theorem point_sub_point_zero_eq_distance (m : Matrix) (p : Point) :
    Point.mk ((m.point p).x - (m.point (Point.mk 0 0)).x)
             ((m.point p).y - (m.point (Point.mk 0 0)).y) = m.distance p := by
  simp only [Matrix.point, Matrix.distance, Point.mk.injEq]
  refine ⟨by ring, by ring⟩

/-- `Spline` from `gcode_draw.py`: four cubic Bezier control points. -/
structure Spline where
  a : Point
  b : Point
  c : Point
  d : Point
deriving DecidableEq

/-- `Spline.de_casteljau`: split at the curve midpoint into two Beziers. -/
def Spline.de_casteljau (s : Spline) : Spline × Spline :=
  let ab := s.a.lerp_half s.b
  let bc := s.b.lerp_half s.c
  let cd := s.c.lerp_half s.d
  let abbc := ab.lerp_half bc
  let bccd := bc.lerp_half cd
  let final := abbc.lerp_half bccd
  (Spline.mk s.a ab abbc final, Spline.mk final bccd cd s.d)

/-- `Spline.error_squared`: upper bound on the squared error (times 16) of
approximating the spline by the chord from `a` to `d`.  The source mutates
`ux` in place (`ux *= ux; if ux < vx: ux = vx`); the `if`-expressions here
reproduce that update. -/
def Spline.error_squared (s : Spline) : ℚ :=
  let ux := 3 * s.b.x - 2 * s.a.x - s.d.x
  let uy := 3 * s.b.y - 2 * s.a.y - s.d.y
  let vx := 3 * s.c.x - 2 * s.d.x - s.a.x
  let vy := 3 * s.c.y - 2 * s.d.y - s.a.y
  let ux2 := ux * ux
  let uy2 := uy * uy
  let vx2 := vx * vx
  let vy2 := vy * vy
  (if ux2 < vx2 then vx2 else ux2) + (if uy2 < vy2 then vy2 else uy2)

/-- `Spline.decompose`, with an explicit recursion-depth budget `fuel`
standing in for Python's unbounded recursion: `none` means the budget was
exhausted (in particular, an infinite recursion in the source is modelled by
`none` at every budget).  One unit of fuel allows one level of subdivision. -/
def Spline.decomposeF : Nat → Spline → ℚ → Option (List Point)
  | 0, _, _ => none
  | fuel + 1, s, tolerance =>
    if s.error_squared ≤ 16 * tolerance * tolerance then some [s.d]
    else
      match Spline.decomposeF fuel s.de_casteljau.1 tolerance,
            Spline.decomposeF fuel s.de_casteljau.2 tolerance with
      | some l, some r => some (l ++ r)
      | _, _ => none

/- Verification helpers for the error estimate: the per-coordinate tangent
deviations `u`, `v` of the estimate, and how subdivision transforms them. -/

def Spline.ux (s : Spline) : ℚ := 3 * s.b.x - 2 * s.a.x - s.d.x

def Spline.uy (s : Spline) : ℚ := 3 * s.b.y - 2 * s.a.y - s.d.y

def Spline.vx (s : Spline) : ℚ := 3 * s.c.x - 2 * s.d.x - s.a.x

def Spline.vy (s : Spline) : ℚ := 3 * s.c.y - 2 * s.d.y - s.a.y

lemma Spline.error_squared_eq_max (s : Spline) :
    s.error_squared = max (s.ux * s.ux) (s.vx * s.vx) + max (s.uy * s.uy) (s.vy * s.vy) := by
  simp only [Spline.error_squared, Spline.ux, Spline.uy, Spline.vx, Spline.vy]
  congr 1
  · split_ifs with h
    · exact (max_eq_right h.le).symm
    · exact (max_eq_left (not_lt.mp h)).symm
  · split_ifs with h
    · exact (max_eq_right h.le).symm
    · exact (max_eq_left (not_lt.mp h)).symm

lemma Spline.ux_left (s : Spline) : (s.de_casteljau.1).ux = (3 * s.ux - s.vx) / 8 := by
  simp only [Spline.de_casteljau, Spline.ux, Spline.vx, Point.lerp_half]
  ring

lemma Spline.uy_left (s : Spline) : (s.de_casteljau.1).uy = (3 * s.uy - s.vy) / 8 := by
  simp only [Spline.de_casteljau, Spline.uy, Spline.vy, Point.lerp_half]
  ring

lemma Spline.vx_left (s : Spline) : (s.de_casteljau.1).vx = s.ux / 4 := by
  simp only [Spline.de_casteljau, Spline.ux, Spline.vx, Point.lerp_half]
  ring

lemma Spline.vy_left (s : Spline) : (s.de_casteljau.1).vy = s.uy / 4 := by
  simp only [Spline.de_casteljau, Spline.uy, Spline.vy, Point.lerp_half]
  ring

lemma Spline.ux_right (s : Spline) : (s.de_casteljau.2).ux = s.vx / 4 := by
  simp only [Spline.de_casteljau, Spline.ux, Spline.vx, Point.lerp_half]
  ring

lemma Spline.uy_right (s : Spline) : (s.de_casteljau.2).uy = s.vy / 4 := by
  simp only [Spline.de_casteljau, Spline.uy, Spline.vy, Point.lerp_half]
  ring

lemma Spline.vx_right (s : Spline) : (s.de_casteljau.2).vx = (3 * s.vx - s.ux) / 8 := by
  simp only [Spline.de_casteljau, Spline.ux, Spline.vx, Point.lerp_half]
  ring

lemma Spline.vy_right (s : Spline) : (s.de_casteljau.2).vy = (3 * s.vy - s.uy) / 8 := by
  simp only [Spline.de_casteljau, Spline.uy, Spline.vy, Point.lerp_half]
  ring

lemma combo_sq_le (u v : ℚ) :
    ((3 * u - v) / 8) * ((3 * u - v) / 8) ≤ max (u * u) (v * v) / 4 := by
  rcases le_total (u * u) (v * v) with h | h
  · rw [max_eq_right h]
    nlinarith [sq_nonneg (u + v), sq_nonneg (u - v)]
  · rw [max_eq_left h]
    nlinarith [sq_nonneg (u + v), sq_nonneg (u - v)]

lemma quarter_sq_le (u v : ℚ) :
    (u / 4) * (u / 4) ≤ max (u * u) (v * v) / 4 := by
  nlinarith [le_max_left (u * u) (v * v), mul_self_nonneg u]

lemma quarter_sq_le_right (u v : ℚ) :
    (v / 4) * (v / 4) ≤ max (u * u) (v * v) / 4 := by
  nlinarith [le_max_right (u * u) (v * v), mul_self_nonneg v]

/-- Subdividing never increases the error estimate: each half's estimate is
at most a quarter of the parent's. -/
lemma Spline.error_squared_left_le (s : Spline) :
    (s.de_casteljau.1).error_squared ≤ s.error_squared / 4 := by
  rw [Spline.error_squared_eq_max, Spline.error_squared_eq_max,
      Spline.ux_left, Spline.uy_left, Spline.vx_left, Spline.vy_left]
  have hx := max_le (combo_sq_le s.ux s.vx) (quarter_sq_le s.ux s.vx)
  have hy := max_le (combo_sq_le s.uy s.vy) (quarter_sq_le s.uy s.vy)
  linarith

/-- Subdividing never increases the error estimate (right half). -/
lemma Spline.error_squared_right_le (s : Spline) :
    (s.de_casteljau.2).error_squared ≤ s.error_squared / 4 := by
  rw [Spline.error_squared_eq_max, Spline.error_squared_eq_max,
      Spline.ux_right, Spline.uy_right, Spline.vx_right, Spline.vy_right]
  have hx := max_le (quarter_sq_le_right s.ux s.vx)
    (le_trans (combo_sq_le s.vx s.ux) (le_of_eq (by rw [max_comm])))
  have hy := max_le (quarter_sq_le_right s.uy s.vy)
    (le_trans (combo_sq_le s.vy s.uy) (le_of_eq (by rw [max_comm])))
  linarith

/-- With `fuel` levels of subdivision available, the recursion succeeds as
soon as the error estimate is within `4 ^ fuel` times the acceptance
threshold: each level divides the estimate by at least four. -/
lemma Spline.decomposeF_isSome (fuel : Nat) :
    ∀ (s : Spline) (t : ℚ), s.error_squared ≤ 4 ^ fuel * (16 * t * t) →
      ∃ ps, Spline.decomposeF (fuel + 1) s t = some ps := by
  induction fuel with
  | zero =>
    intro s t h
    rw [pow_zero, one_mul] at h
    exact ⟨[s.d], by simp [Spline.decomposeF, h]⟩
  | succ n ih =>
    intro s t h
    by_cases hacc : s.error_squared ≤ 16 * t * t
    · exact ⟨[s.d], by simp [Spline.decomposeF, hacc]⟩
    · have hthr : (0:ℚ) ≤ 4 ^ n * (16 * t * t) := by
        have : (16:ℚ) * t * t ≤ s.error_squared := le_of_not_le hacc
        nlinarith [s.error_squared_left_le, (s.de_casteljau.1).error_squared,
          mul_self_nonneg t, pow_pos (by norm_num : (0:ℚ) < 4) n,
          pow_pos (by norm_num : (0:ℚ) < 4) (n+1)]
      have hl : (s.de_casteljau.1).error_squared ≤ 4 ^ n * (16 * t * t) := by
        have h4 : s.error_squared / 4 ≤ 4 ^ n * (16 * t * t) := by
          rw [div_le_iff₀ (by norm_num : (0:ℚ) < 4)]
          calc s.error_squared ≤ 4 ^ (n+1) * (16 * t * t) := h
            _ = 4 ^ n * (16 * t * t) * 4 := by ring
        exact le_trans s.error_squared_left_le h4
      have hr : (s.de_casteljau.2).error_squared ≤ 4 ^ n * (16 * t * t) := by
        have h4 : s.error_squared / 4 ≤ 4 ^ n * (16 * t * t) := by
          rw [div_le_iff₀ (by norm_num : (0:ℚ) < 4)]
          calc s.error_squared ≤ 4 ^ (n+1) * (16 * t * t) := h
            _ = 4 ^ n * (16 * t * t) * 4 := by ring
        exact le_trans s.error_squared_right_le h4
      obtain ⟨pl, hpl⟩ := ih s.de_casteljau.1 t hl
      obtain ⟨pr, hpr⟩ := ih s.de_casteljau.2 t hr
      refine ⟨pl ++ pr, ?_⟩
      rw [Spline.decomposeF, if_neg hacc, hpl, hpr]

/-- For a positive threshold, some power of four exceeds any given estimate. -/
lemma exists_pow_four_bound (e c : ℚ) (hc : 0 < c) : ∃ n : Nat, e ≤ 4 ^ n * c := by
  obtain ⟨n, hn⟩ := pow_unbounded_of_one_lt (e / c) (by norm_num : (1:ℚ) < 4)
  exact ⟨n, by rw [div_lt_iff₀ hc] at hn; linarith⟩

/-- C2: for every tolerance `t > 0` and every cubic, `decompose` terminates:
some finite recursion-depth budget suffices, because each `de_casteljau`
subdivision cuts the error estimate by at least a factor of four
(`Spline.error_squared_left_le` / `right_le`), so it falls below the
`16*t^2` acceptance threshold after finitely many levels. -/
theorem decompose_terminates (s : Spline) (t : ℚ) (ht : 0 < t) :
    ∃ (fuel : Nat) (ps : List Point), Spline.decomposeF fuel s t = some ps := by
  have hc : (0:ℚ) < 16 * t * t := by positivity
  obtain ⟨n, hn⟩ := exists_pow_four_bound s.error_squared (16 * t * t) hc
  obtain ⟨ps, hps⟩ := Spline.decomposeF_isSome n s t hn
  exact ⟨n + 1, ps, hps⟩

/-- C2 witness: termination at a concrete spline and tolerance `1`. -/
theorem decompose_terminates_witness :
    (0:ℚ) < 1 ∧ ∃ (fuel : Nat) (ps : List Point),
      Spline.decomposeF fuel
        (Spline.mk (Point.mk 0 0) (Point.mk 2 0) (Point.mk 2 0) (Point.mk 3 0)) 1 = some ps :=
  ⟨by norm_num, decompose_terminates _ 1 (by norm_num)⟩

/-- Every successful decomposition ends with the spline's endpoint `d`. -/
lemma Spline.decomposeF_ends (fuel : Nat) :
    ∀ (s : Spline) (t : ℚ) (ps : List Point),
      Spline.decomposeF fuel s t = some ps → ∃ l, ps = l ++ [s.d] := by
  induction fuel with
  | zero => intro s t ps h; simp [Spline.decomposeF] at h
  | succ n ih =>
    intro s t ps h
    rw [Spline.decomposeF] at h
    split_ifs at h with hacc
    · simp only [Option.some.injEq] at h
      exact ⟨[], by rw [← h]; rfl⟩
    · revert h
      cases hl : Spline.decomposeF n s.de_casteljau.1 t with
      | none => intro h; simp at h
      | some pl =>
        cases hr : Spline.decomposeF n s.de_casteljau.2 t with
        | none => intro h; simp at h
        | some pr =>
          intro h
          simp only [Option.some.injEq] at h
          obtain ⟨l, hlr⟩ := ih s.de_casteljau.2 t pr hr
          have hd : s.de_casteljau.2.d = s.d := rfl
          exact ⟨pl ++ l, by rw [← h, hlr, hd, List.append_assoc]⟩

/-- Acceptance at tolerance `t` implies acceptance at every node where the
run at tolerance `t/4` still subdivides: the `t/4` recursion follows the same
tree, so each point of `decompose(t)` survives, in order, in `decompose(t/4)`. -/
lemma Spline.decomposeF_sublist (n : Nat) :
    ∀ (m : Nat) (s : Spline) (t : ℚ) (ps qs : List Point),
      Spline.decomposeF n s t = some ps →
      Spline.decomposeF m s (t / 4) = some qs →
      ps.Sublist qs := by
  induction n with
  | zero => intro m s t ps qs hp _; simp [Spline.decomposeF] at hp
  | succ n ih =>
    intro m s t ps qs hp hq
    rw [Spline.decomposeF] at hp
    split_ifs at hp with hacc
    · simp only [Option.some.injEq] at hp
      obtain ⟨l, rfl⟩ := Spline.decomposeF_ends m s (t / 4) qs hq
      rw [← hp]
      exact List.sublist_append_right l [s.d]
    · have hacc4 : ¬ s.error_squared ≤ 16 * (t / 4) * (t / 4) := by
        intro hle
        apply hacc
        nlinarith [mul_self_nonneg t]
      cases m with
      | zero => simp [Spline.decomposeF] at hq
      | succ m =>
        rw [Spline.decomposeF, if_neg hacc4] at hq
        revert hp
        cases hl1 : Spline.decomposeF n s.de_casteljau.1 t with
        | none => intro hp; simp at hp
        | some pl =>
          cases hr1 : Spline.decomposeF n s.de_casteljau.2 t with
          | none => intro hp; simp at hp
          | some pr =>
            intro hp
            simp only [Option.some.injEq] at hp
            revert hq
            cases hl2 : Spline.decomposeF m s.de_casteljau.1 (t / 4) with
            | none => intro hq; simp at hq
            | some ql =>
              cases hr2 : Spline.decomposeF m s.de_casteljau.2 (t / 4) with
              | none => intro hq; simp at hq
              | some qr =>
                intro hq
                simp only [Option.some.injEq] at hq
                rw [← hp, ← hq]
                exact List.Sublist.append (ih m s.de_casteljau.1 t pl ql hl1 hl2)
                  (ih m s.de_casteljau.2 t pr qr hr1 hr2)

/-- C8: tightening the tolerance only refines the polyline: the ordered
point sequence produced at tolerance `t` is an (ordered) subsequence of the
one produced at tolerance `t/4`, whenever both recursions complete within
their budgets. -/
theorem decompose_refinement (s : Spline) (t : ℚ) (n m : Nat) (ps qs : List Point)
    (ht : 0 < t)
    (hp : Spline.decomposeF n s t = some ps)
    (hq : Spline.decomposeF m s (t / 4) = some qs) :
    ps.Sublist qs :=
  Spline.decomposeF_sublist n m s t ps qs hp hq

/-- C8 witness: the spline `(0,0) (2,0) (2,0) (3,0)` at tolerance `1` gives
the single point `(3,0)`; at tolerance `1/4` it subdivides twice and gives
three points, of which the coarse result is a subsequence. -/
theorem decompose_refinement_witness :
    (0:ℚ) < 1 ∧ List.Sublist [Point.mk 3 0]
      [Point.mk (75/64) 0, Point.mk (15/8) 0, Point.mk 3 0] :=
  ⟨by norm_num,
    decompose_refinement
      (Spline.mk (Point.mk 0 0) (Point.mk 2 0) (Point.mk 2 0) (Point.mk 3 0)) 1 1 3
      [Point.mk 3 0] [Point.mk (75/64) 0, Point.mk (15/8) 0, Point.mk 3 0]
      (by norm_num)
      (by norm_num [Spline.decomposeF, Spline.error_squared])
      (by norm_num [Spline.decomposeF, Spline.error_squared, Spline.de_casteljau,
            Point.lerp_half])⟩

/-- C3 counterexample: the four control points `(0,0) (2,0) (2,0) (3,0)` are
collinear (all on the x-axis), yet the error estimate is `9`, so at tolerance
`0` the acceptance test `error_squared ≤ 16·0·0` fails and `decompose`
subdivides instead of returning `(d,)` in one step: with exactly one level of
recursion budget the run does not produce the one-point answer (it recurses
and exhausts the budget). -/
theorem collinear_one_step_cex :
    (Spline.mk (Point.mk 0 0) (Point.mk 2 0) (Point.mk 2 0) (Point.mk 3 0)).a.y = 0 ∧
    (Spline.mk (Point.mk 0 0) (Point.mk 2 0) (Point.mk 2 0) (Point.mk 3 0)).b.y = 0 ∧
    (Spline.mk (Point.mk 0 0) (Point.mk 2 0) (Point.mk 2 0) (Point.mk 3 0)).c.y = 0 ∧
    (Spline.mk (Point.mk 0 0) (Point.mk 2 0) (Point.mk 2 0) (Point.mk 3 0)).d.y = 0 ∧
    (Spline.mk (Point.mk 0 0) (Point.mk 2 0) (Point.mk 2 0) (Point.mk 3 0)).error_squared = 9 ∧
    ¬ (Spline.mk (Point.mk 0 0) (Point.mk 2 0) (Point.mk 2 0) (Point.mk 3 0)).error_squared
        ≤ 16 * 0 * 0 ∧
    Spline.decomposeF 1
      (Spline.mk (Point.mk 0 0) (Point.mk 2 0) (Point.mk 2 0) (Point.mk 3 0)) 0 = none := by
  refine ⟨rfl, rfl, rfl, rfl, by norm_num [Spline.error_squared],
    by norm_num [Spline.error_squared],
    by
      norm_num [Spline.decomposeF, Spline.error_squared, Spline.de_casteljau,
        Point.lerp_half]⟩

/-- C3 amended: one-step termination for every tolerance (including zero)
holds not for all collinear control-point tuples but exactly when the error
estimate is zero (control points at the third-points of the chord, e.g.
evenly spaced collinear points): then `decompose` performs no subdivision and
returns the single-point sequence `(d,)`. -/
theorem zero_error_one_step (s : Spline) (t : ℚ) (h : s.error_squared = 0) :
    Spline.decomposeF 1 s t = some [s.d] := by
  rw [Spline.decomposeF, if_pos]
  rw [h]
  nlinarith [mul_self_nonneg t]

/-- C3 amended witness: evenly spaced collinear control points, tolerance 0. -/
theorem zero_error_one_step_witness :
    (Spline.mk (Point.mk 0 0) (Point.mk 1 0) (Point.mk 2 0) (Point.mk 3 0)).error_squared = 0 ∧
    Spline.decomposeF 1
      (Spline.mk (Point.mk 0 0) (Point.mk 1 0) (Point.mk 2 0) (Point.mk 3 0)) 0 =
      some [Point.mk 3 0] :=
  ⟨by norm_num [Spline.error_squared],
    zero_error_one_step
      (Spline.mk (Point.mk 0 0) (Point.mk 1 0) (Point.mk 2 0) (Point.mk 3 0)) 0
      (by norm_num [Spline.error_squared])⟩

/-- One operation of the `Draw` capability (`move`/`draw`/`curve` of
`gcode_draw.py`), as received by a sink. -/
inductive DrawCall
  | move (x y : ℚ)
  | draw (x y : ℚ)
  | curve (x1 y1 x2 y2 x3 y3 : ℚ)
deriving DecidableEq

/-- The cursor update of the base `Draw` class: every operation leaves
`(last_x, last_y)` at the operation's endpoint — `(x, y)` for `move`/`draw`
and `(x3, y3)` for `curve`. -/
def DrawCall.callEnd : DrawCall → ℚ × ℚ
  | .move x y => (x, y)
  | .draw x y => (x, y)
  | .curve _ _ _ _ x3 y3 => (x3, y3)

/-- `OffsetDraw` state from `gcode_draw.py` (same class in `gcode_text.py`):
an accumulating offset applied to every call forwarded to the wrapped chain. -/
structure OffsetDraw where
  offset_x : ℚ
  offset_y : ℚ
deriving DecidableEq

/-- `OffsetDraw.__init__`: both offsets start at `0.0`. -/
def OffsetDraw.init : OffsetDraw := OffsetDraw.mk 0 0

/-- `OffsetDraw.step`: the entire source body is `self.offset_x += offset_x`;
the `offset_y` argument is accepted but never stored. -/
def OffsetDraw.step (o : OffsetDraw) (ox oy : ℚ) : OffsetDraw :=
  OffsetDraw.mk (o.offset_x + ox) o.offset_y

/-- The call the wrapped chain receives when `OffsetDraw` forwards a call:
`move`/`draw`/`curve` add `(offset_x, offset_y)` to every coordinate pair. -/
def OffsetDraw.apply (o : OffsetDraw) : DrawCall → DrawCall
  | DrawCall.move x y => DrawCall.move (x + o.offset_x) (y + o.offset_y)
  | DrawCall.draw x y => DrawCall.draw (x + o.offset_x) (y + o.offset_y)
  | DrawCall.curve x1 y1 x2 y2 x3 y3 =>
      DrawCall.curve (x1 + o.offset_x) (y1 + o.offset_y) (x2 + o.offset_x)
        (y2 + o.offset_y) (x3 + o.offset_x) (y3 + o.offset_y)

/-- A finite sequence of `step` calls, applied in order. -/
def OffsetDraw.steps (o : OffsetDraw) : List (ℚ × ℚ) → OffsetDraw
  | [] => o
  | d :: ds => OffsetDraw.steps (o.step d.1 d.2) ds

lemma OffsetDraw.steps_offsets (ds : List (ℚ × ℚ)) : ∀ (o : OffsetDraw),
    (OffsetDraw.steps o ds).offset_x = o.offset_x + (ds.map Prod.fst).sum ∧
    (OffsetDraw.steps o ds).offset_y = o.offset_y := by
  induction ds with
  | nil => intro o; simp [OffsetDraw.steps]
  | cons d ds ih =>
    intro o
    have h := ih (o.step d.1 d.2)
    simp only [OffsetDraw.steps, OffsetDraw.step] at h ⊢
    refine ⟨?_, h.2⟩
    rw [h.1]
    simp
    ring

/-- C6 counterexample: a single `step(3, 5)` from the initial state leaves
the accumulated offset at `(3, 0)`, not the componentwise sum `(3, 5)`:
`step` discards its `offset_y` argument. -/
theorem offset_step_cex :
    (OffsetDraw.init.step 3 5).offset_x = 3 ∧
    (OffsetDraw.init.step 3 5).offset_y = 0 ∧
    ¬ (OffsetDraw.init.step 3 5).offset_y = 5 := by
  refine ⟨?_, rfl, ?_⟩
  · show (0:ℚ) + 3 = 3
    norm_num
  · show ¬ (0:ℚ) = 5
    norm_num

/-- C6 amended: after any finite sequence of `step(dx_i, dy_i)` calls the
accumulated offset added to forwarded calls is `(sum of dx_i, 0)`: the x
offset is the sum of the x deltas, while `offset_y` stays `0` because `step`
ignores its second argument.  In particular a `move(0,0)` forwarded after
the steps reaches the chain as `move(sum of dx_i, 0)`. -/
theorem offset_steps_sum (ds : List (ℚ × ℚ)) :
    (OffsetDraw.steps OffsetDraw.init ds).offset_x = (ds.map Prod.fst).sum ∧
    (OffsetDraw.steps OffsetDraw.init ds).offset_y = 0 ∧
    (OffsetDraw.steps OffsetDraw.init ds).apply (DrawCall.move 0 0) =
      DrawCall.move (ds.map Prod.fst).sum 0 := by
  have h := OffsetDraw.steps_offsets ds OffsetDraw.init
  have hx : (OffsetDraw.steps OffsetDraw.init ds).offset_x = (ds.map Prod.fst).sum := by
    rw [h.1]; show 0 + _ = _; rw [zero_add]
  have hy : (OffsetDraw.steps OffsetDraw.init ds).offset_y = 0 := h.2
  refine ⟨hx, hy, ?_⟩
  simp [OffsetDraw.apply, hx, hy]

/-- One element of the flat outline array: an opcode character or a number. -/
inductive Elem
  | cmd (c : Char)
  | val (v : ℚ)
deriving DecidableEq

/-- `Font.outline_path` from `gcode_text.py` (the loop body is identical to
`Glyph.path` in `gcode_font.py`): decode the opcode stream while tracking the
interpreter's local position `(x1, y1)`, emitting one Draw call per decoded
operation.  The `c` opcode reads six values and passes them to `curve` in
stream order, with the local position set to the last pair read; the `2`
opcode converts the quadratic to a cubic.  `none` models the exceptions of
the source: `ValueError` on an unknown opcode, and generator exhaustion /
type errors when the stream ends before an `e` terminator. -/
def outline_path : List Elem → ℚ → ℚ → Option (List DrawCall)
  | Elem.cmd 'm' :: Elem.val x :: Elem.val y :: rest, _, _ =>
    (outline_path rest x y).map (fun cs => DrawCall.move x y :: cs)
  | Elem.cmd 'l' :: Elem.val x :: Elem.val y :: rest, _, _ =>
    (outline_path rest x y).map (fun cs => DrawCall.draw x y :: cs)
  | Elem.cmd 'c' :: Elem.val x3 :: Elem.val y3 :: Elem.val x2 :: Elem.val y2 ::
      Elem.val x1 :: Elem.val y1 :: rest, _, _ =>
    (outline_path rest x1 y1).map (fun cs => DrawCall.curve x3 y3 x2 y2 x1 y1 :: cs)
  | Elem.cmd '2' :: Elem.val qx :: Elem.val qy :: Elem.val ex :: Elem.val ey :: rest, x, y =>
    (outline_path rest ex ey).map (fun cs =>
      DrawCall.curve (x + 2 * (qx - x) / 3) (y + 2 * (qy - y) / 3)
        (ex + 2 * (qx - ex) / 3) (ey + 2 * (qy - ey) / 3) ex ey :: cs)
  | Elem.cmd 'e' :: _, _, _ => some []
  | _, _, _ => none

/-- Instrumented copy of `outline_path` recording, for each decoded
operation, the interpreter's local `(x1, y1)` right after the operation,
paired with the Draw call it emitted. -/
def outline_trace : List Elem → ℚ → ℚ → Option (List ((ℚ × ℚ) × DrawCall))
  | Elem.cmd 'm' :: Elem.val x :: Elem.val y :: rest, _, _ =>
    (outline_trace rest x y).map (fun cs => ((x, y), DrawCall.move x y) :: cs)
  | Elem.cmd 'l' :: Elem.val x :: Elem.val y :: rest, _, _ =>
    (outline_trace rest x y).map (fun cs => ((x, y), DrawCall.draw x y) :: cs)
  | Elem.cmd 'c' :: Elem.val x3 :: Elem.val y3 :: Elem.val x2 :: Elem.val y2 ::
      Elem.val x1 :: Elem.val y1 :: rest, _, _ =>
    (outline_trace rest x1 y1).map (fun cs =>
      ((x1, y1), DrawCall.curve x3 y3 x2 y2 x1 y1) :: cs)
  | Elem.cmd '2' :: Elem.val qx :: Elem.val qy :: Elem.val ex :: Elem.val ey :: rest, x, y =>
    (outline_trace rest ex ey).map (fun cs =>
      ((ex, ey), DrawCall.curve (x + 2 * (qx - x) / 3) (y + 2 * (qy - y) / 3)
        (ex + 2 * (qx - ex) / 3) (ey + 2 * (qy - ey) / 3) ex ey) :: cs)
  | Elem.cmd 'e' :: _, _, _ => some []
  | _, _, _ => none

/-- The instrumented interpreter emits exactly the calls of `outline_path`. -/
lemma outline_path_eq_trace : ∀ (l : List Elem) (x y : ℚ),
    outline_path l x y = (outline_trace l x y).map (List.map Prod.snd) := by
  intro l x y
  induction l, x, y using outline_path.induct <;>
    simp_all [outline_path, outline_trace, Option.map_map]
  all_goals rfl

/-- The interpreter's local position after each decoded operation is the
endpoint of the call that operation emitted. -/
lemma outline_trace_pos_aux (n : ℕ) : ∀ (l : List Elem), l.length ≤ n → ∀ (x y : ℚ)
    (tr : List ((ℚ × ℚ) × DrawCall)), outline_trace l x y = some tr →
    tr.map Prod.fst = (tr.map Prod.snd).map DrawCall.callEnd := by
  induction n with
  | zero =>
    intro l hl x y tr htr
    rw [outline_trace.eq_def] at htr
    split at htr <;> first
      | exact Option.noConfusion htr
      | (injection htr with h; subst h; simp)
      | simp at hl
  | succ n ih =>
    intro l hl x y tr htr
    rw [outline_trace.eq_def] at htr
    split at htr <;> first
      | exact Option.noConfusion htr
      | (injection htr with h; subst h; simp)
      | (simp only [Option.map_eq_some'] at htr
         obtain ⟨tr', htr', rfl⟩ := htr
         simp only [List.length_cons] at hl
         simp only [List.map_cons]
         rw [ih _ (by omega) _ _ tr' htr']
         rfl)

/-- C5: for every glyph opcode program, the interpreter's locally tracked
position after each decoded operation equals the sink's cursor after the
corresponding call.  A sink that records each call's passed endpoint in
`(last_x, last_y)` (the base `Draw` semantics, `DrawCall.callEnd`) holds,
after the `i`-th call, exactly `callEnd` of that call; the trace shows the
interpreter's position after the `i`-th operation is the same value, and
before the first operation both trackers sit at the same start `(x, y)`
(both `(0,0)` at the `glyph_path` call site). -/
theorem interpreter_sink_positions_agree (l : List Elem) (x y : ℚ)
    (calls : List DrawCall) (tr : List ((ℚ × ℚ) × DrawCall))
    (hpath : outline_path l x y = some calls)
    (htrace : outline_trace l x y = some tr) :
    tr.map Prod.snd = calls ∧ tr.map Prod.fst = calls.map DrawCall.callEnd := by
  have h := outline_path_eq_trace l x y
  rw [htrace, hpath] at h
  rw [Option.map_some'] at h
  rw [Option.some.injEq] at h
  constructor
  · exact h.symm
  · rw [h]
    exact outline_trace_pos_aux l.length l (le_refl _) x y tr htrace

/-- C5 witness: a one-cubic program starting at `(0,0)`: the interpreter
finishes at `(5,6)`, the endpoint the sink records for the emitted call. -/
theorem interpreter_sink_positions_agree_witness :
    ([(((5:ℚ), (6:ℚ)), DrawCall.curve 1 2 3 4 5 6)].map Prod.snd =
        [DrawCall.curve 1 2 3 4 5 6]) ∧
    ([(((5:ℚ), (6:ℚ)), DrawCall.curve 1 2 3 4 5 6)].map Prod.fst =
        [DrawCall.curve 1 2 3 4 5 6].map DrawCall.callEnd) :=
  interpreter_sink_positions_agree
    [Elem.cmd 'c', Elem.val 1, Elem.val 2, Elem.val 3, Elem.val 4,
      Elem.val 5, Elem.val 6, Elem.cmd 'e'] 0 0
    [DrawCall.curve 1 2 3 4 5 6] [((5, 6), DrawCall.curve 1 2 3 4 5 6)] rfl rfl

/-- C4 counterexample: for the encoded stream `c 1 2 3 4 5 6 e` the sink's
`curve` receives the six operands unchanged, in stream order, and the
endpoint the interpreter (and the sink) record afterwards is `(5,6)` — the
LAST operand pair of the stream.  Under the claim the endpoint pair would be
first in the stream and the arguments would be reordered, so `curve` would
receive `3 4 5 6 1 2`; it does not. -/
theorem cubic_operand_order_cex :
    outline_trace [Elem.cmd 'c', Elem.val 1, Elem.val 2, Elem.val 3, Elem.val 4,
      Elem.val 5, Elem.val 6, Elem.cmd 'e'] 0 0 =
      some [((5, 6), DrawCall.curve 1 2 3 4 5 6)] ∧
    DrawCall.curve 1 2 3 4 5 6 ≠ DrawCall.curve 3 4 5 6 1 2 := by
  refine ⟨rfl, ?_⟩
  intro h
  injection h with h1
  exact absurd h1 (by norm_num)

/-- C4 amended: the six encoded operands of a `c` opcode are already stored
in `(control1, control2, endpoint)` order — the endpoint pair comes LAST in
the stream — and the interpreter passes them to the sink's `curve` in
unchanged stream order, which is exactly the `(control1, control2, end)`
argument order of the Draw capability; the interpreter's position (and the
sink's cursor, `DrawCall.callEnd`) afterwards is the last operand pair. -/
theorem cubic_operand_order (c1x c1y c2x c2y ex ey x y : ℚ) :
    outline_trace [Elem.cmd 'c', Elem.val c1x, Elem.val c1y, Elem.val c2x,
      Elem.val c2y, Elem.val ex, Elem.val ey, Elem.cmd 'e'] x y =
      some [((ex, ey), DrawCall.curve c1x c1y c2x c2y ex ey)] ∧
    DrawCall.callEnd (DrawCall.curve c1x c1y c2x c2y ex ey) = (ex, ey) :=
  ⟨rfl, rfl⟩

/-- Per-glyph data used by `text_path` (`gcode_font.py`): the advance width
stored in the glyph's metrics and the opcode outline program. -/
structure Glyph where
  width : ℚ
  outline : List Elem
deriving DecidableEq

/-- `Font` for the purposes of glyph lookup: the `glyphs` dictionary,
modelled as an association list. -/
structure Font where
  glyphs : List (ℕ × Glyph)
deriving DecidableEq

/-- `Font.glyph`: return the glyph for `ucs4` if present, else glyph `0`
("notdef").  If codepoint `0` is itself absent, the source's `self.glyphs[0]`
raises `KeyError`: modelled by `none`. -/
def Font.glyph (f : Font) (ucs4 : ℕ) : Option Glyph :=
  match f.glyphs.lookup ucs4 with
  | some g => some g
  | none => f.glyphs.lookup 0

/-- `Font.glyph_path`: run the glyph's program (from local position `(0,0)`)
through the sink and return its advance width.  The calls produced are those
of `outline_path`. -/
def Font.glyph_path (f : Font) (ucs4 : ℕ) : Option (List DrawCall × ℚ) :=
  match f.glyph ucs4 with
  | none => none
  | some g =>
    match outline_path g.outline 0 0 with
    | none => none
    | some cs => some (cs, g.width)

/-- The loop of `Font.text_path`: for each codepoint, replay its glyph
program through the `OffsetDraw`-wrapped sink (each call shifted by the
offset current while that glyph is drawn), then `step` the offset by the
glyph's advance.  Returns the calls the inner sink receives and the final
`offset_x`. -/
def Font.text_path_loop (f : Font) : List ℕ → OffsetDraw → Option (List DrawCall × ℚ)
  | [], o => some ([], o.offset_x)
  | u :: us, o =>
    match f.glyph_path u with
    | none => none
    | some (cs, w) =>
      match Font.text_path_loop f us (o.step w 0) with
      | none => none
      | some (rest, total) => some (cs.map o.apply ++ rest, total)

/-- `Font.text_path`: the loop above started with a fresh `OffsetDraw`. -/
def Font.text_path (f : Font) (s : List ℕ) : Option (List DrawCall × ℚ) :=
  Font.text_path_loop f s OffsetDraw.init

lemma Font.text_path_loop_closed (f : Font) :
    ∀ (s : List ℕ) (gs : List (List DrawCall × ℚ)) (a : ℚ),
    s.mapM f.glyph_path = some gs →
    Font.text_path_loop f s (OffsetDraw.mk a 0) = some
      ((gs.zip ((gs.map Prod.snd).scanl (fun b w => b + w) a)).flatMap
          (fun p => p.1.1.map (OffsetDraw.apply (OffsetDraw.mk p.2 0))),
        a + (gs.map Prod.snd).sum) := by
  intro s
  induction s with
  | nil =>
    intro gs a h
    simp only [List.mapM_nil, pure, Option.some.injEq] at h
    subst h
    simp [Font.text_path_loop]
  | cons u us ih =>
    intro gs a h
    rw [List.mapM_cons] at h
    simp only [bind, Option.bind_eq_some, pure, Option.some.injEq] at h
    obtain ⟨g, hg, gs', hgs', rfl⟩ := h
    obtain ⟨cs, w⟩ := g
    rw [Font.text_path_loop, hg]
    dsimp only
    have hstep : (OffsetDraw.mk a 0).step w 0 = OffsetDraw.mk (a + w) 0 := rfl
    rw [hstep, ih gs' (a + w) hgs']
    simp only [List.map_cons, List.scanl_cons, List.zip_cons_cons, List.flatMap_cons,
      List.sum_cons, Option.some.injEq, Prod.mk.injEq]
    exact ⟨rfl, by ring⟩

/-- C7: `Font.text_path` returns the total advance — the sum of the advance
widths of the glyphs looked up for the characters of `s` — and the inner
sink receives each character's glyph program shifted horizontally by the
cumulative advance of the preceding characters (the `scanl` prefix sums),
with zero vertical offset.  The hypothesis says every character's lookup and
outline decode succeed, yielding per-glyph call lists and widths `gs`. -/
theorem font_text_path_advances (f : Font) (s : List ℕ)
    (gs : List (List DrawCall × ℚ)) (h : s.mapM f.glyph_path = some gs) :
    f.text_path s = some
      ((gs.zip ((gs.map Prod.snd).scanl (fun b w => b + w) 0)).flatMap
          (fun p => p.1.1.map (OffsetDraw.apply (OffsetDraw.mk p.2 0))),
        (gs.map Prod.snd).sum) := by
  have hinit : OffsetDraw.init = OffsetDraw.mk 0 0 := rfl
  rw [Font.text_path, hinit, Font.text_path_loop_closed f s gs 0 h, zero_add]

/-- A small font for concrete runs: glyph `0` ("notdef", empty outline,
advance 3) and glyph `65` (one move and one line, advance 2). -/
def sampleFont : Font :=
  Font.mk [(0, Glyph.mk 3 [Elem.cmd 'e']),
           (65, Glyph.mk 2 [Elem.cmd 'm', Elem.val 0, Elem.val 0,
                            Elem.cmd 'l', Elem.val 1, Elem.val 1, Elem.cmd 'e'])]

/-- C7 witness: the string `[65, 66]` (66 falls back to notdef) yields the
first glyph's calls at offset 0 followed by notdef's empty program, and total
advance `2 + 3 = 5`. -/
theorem font_text_path_advances_witness :
    sampleFont.text_path [65, 66] = some ([DrawCall.move 0 0, DrawCall.draw 1 1], 5) := by
  rw [font_text_path_advances sampleFont [65, 66]
    [([DrawCall.move 0 0, DrawCall.draw 1 1], 2), ([], 3)] (by rfl)]
  norm_num [OffsetDraw.apply, List.scanl]

/-- `LineDraw` state from `gcode_draw.py` (same class in `gcode_text.py`).
Its `__init__` stores only `chain` and `tolerance` and does not call
`Draw.__init__`, so the inherited cursor attributes `last_x`/`last_y` are
not created (the base class only annotates them): `last = none` models the
attributes being unset, and reading them then raises `AttributeError`.  The
wrapped chain is modelled by the list of calls it has received. -/
structure LineDraw where
  tolerance : ℚ
  last : Option (ℚ × ℚ)
  chain : List DrawCall
deriving DecidableEq

/-- `LineDraw.__init__(chain, tolerance)`: no cursor initialisation. -/
def LineDraw.init (tolerance : ℚ) : LineDraw :=
  LineDraw.mk tolerance none []

/-- `LineDraw.move`: forward to the chain, then `super().move` sets the
cursor. -/
def LineDraw.move (ld : LineDraw) (x y : ℚ) : LineDraw :=
  LineDraw.mk ld.tolerance (some (x, y)) (ld.chain ++ [DrawCall.move x y])

/-- `LineDraw.draw`: forward to the chain, then `super().draw` sets the
cursor. -/
def LineDraw.draw (ld : LineDraw) (x y : ℚ) : LineDraw :=
  LineDraw.mk ld.tolerance (some (x, y)) (ld.chain ++ [DrawCall.draw x y])

/-- `LineDraw.curve`: build the spline from `(self.last_x, self.last_y)` to
the given points, flatten it with `decompose(self.tolerance)`, and `draw`
each returned point.  `none` models the `AttributeError` when the cursor was
never set (fresh instance) and, separately, exhaustion of the flattening
budget `fuel` (the source recursion that would not return). -/
def LineDraw.curve (ld : LineDraw) (x1 y1 x2 y2 x3 y3 : ℚ) (fuel : Nat) :
    Option LineDraw :=
  match ld.last with
  | none => none
  | some p =>
    match Spline.decomposeF fuel
        (Spline.mk (Point.mk p.1 p.2) (Point.mk x1 y1) (Point.mk x2 y2) (Point.mk x3 y3))
        ld.tolerance with
    | none => none
    | some ps => some (ps.foldl (fun acc q => acc.draw q.x q.y) ld)

/-- C10: `curve` on a freshly constructed `LineDraw` fails for every
argument tuple and every recursion budget, because the constructor leaves
the inherited cursor unset and `curve` reads it to form the spline's start
point; after a single `move` (which initialises the cursor) the same `curve`
succeeds for some budget, so a preceding `move` or `draw` is a necessary
precondition for `curve` to be defined. -/
theorem linedraw_curve_needs_cursor (tol x0 y0 x1 y1 x2 y2 x3 y3 : ℚ)
    (ht : 0 < tol) :
    (∀ fuel, (LineDraw.init tol).curve x1 y1 x2 y2 x3 y3 fuel = none) ∧
    (∃ fuel st,
      ((LineDraw.init tol).move x0 y0).curve x1 y1 x2 y2 x3 y3 fuel = some st) := by
  constructor
  · intro fuel
    rfl
  · have hc : (0:ℚ) < 16 * tol * tol := by positivity
    obtain ⟨n, hn⟩ := exists_pow_four_bound
      (Spline.mk (Point.mk x0 y0) (Point.mk x1 y1) (Point.mk x2 y2)
        (Point.mk x3 y3)).error_squared (16 * tol * tol) hc
    obtain ⟨ps, hps⟩ := Spline.decomposeF_isSome n
      (Spline.mk (Point.mk x0 y0) (Point.mk x1 y1) (Point.mk x2 y2) (Point.mk x3 y3))
      tol hn
    have hrun : ((LineDraw.init tol).move x0 y0).curve x1 y1 x2 y2 x3 y3 (n + 1) =
        some (ps.foldl (fun acc q => acc.draw q.x q.y)
          ((LineDraw.init tol).move x0 y0)) := by
      rw [LineDraw.curve]
      dsimp only [LineDraw.move, LineDraw.init]
      rw [hps]
    exact ⟨n + 1, _, hrun⟩

/-- C10 witness: tolerance `1`, all coordinates `0`. -/
theorem linedraw_curve_needs_cursor_witness :
    (0:ℚ) < 1 ∧
    ((∀ fuel, (LineDraw.init 1).curve 0 0 0 0 0 0 fuel = none) ∧
     (∃ fuel st, ((LineDraw.init 1).move 0 0).curve 0 0 0 0 0 0 fuel = some st)) :=
  ⟨by norm_num, linedraw_curve_needs_cursor 1 0 0 0 0 0 0 0 0 (by norm_num)⟩

/-- String-level ink metrics used by `text_into_rect`
(`TextMetrics` of `gcode_font.py`). -/
structure TextMetrics where
  left_side_bearing : ℚ
  right_side_bearing : ℚ
  width : ℚ
  ascent : ℚ
  descent : ℚ
deriving DecidableEq

/-- The subset of `TextValues` (`gcode-text.py`) that `text_into_rect`
reads. -/
structure TextValues where
  border : ℚ
  oblique : Bool
  sheer : ℚ
  align : String
  font_metrics : Bool
deriving DecidableEq

/-- Outcome of one `text_into_rect` item:
`reported msg` — the degenerate case was printed and the function returned
before emitting anything (the run continues with the next item);
`raised` — a `ZeroDivisionError` escapes (aborting the run);
`drawn m` — `text_path` was invoked with matrix `m`, emitting the item's
drawing calls. -/
inductive LayoutResult
  | reported (msg : String)
  | raised
  | drawn (m : Matrix)
deriving DecidableEq

def LayoutResult.isReported : LayoutResult → Bool
  | .reported _ => true
  | _ => false

def LayoutResult.isDrawn : LayoutResult → Bool
  | .drawn _ => true
  | _ => false

/-- `text_into_rect` from `gcode-text.py` (the method `GCode.text_into_rect`
in `gcode_text.py` has the same guard structure).  Inputs: the target
rectangle, the string's metrics, the font-wide vertical metrics, the layout
values and the device's Y orientation.  Divisions follow Python semantics:
the only reachable zero denominator is `rect_height` in
`rect_width / rect_height` (the guards ensure `text_height ≠ 0`, and
`text_width = 0` forces the height-constrained branch because
`rect_width / rect_height ≥ 0` there), so that case returns `raised`. -/
def text_into_rect (values : TextValues) (y_invert : Bool)
    (font_ascent font_descent : ℚ) (metrics : TextMetrics) (r : Rect) :
    LayoutResult :=
  let rect_width := r.bottom_right.x - r.top_left.x - values.border * 2
  let rect_height := r.bottom_right.y - r.top_left.y - values.border * 2
  if rect_width < 0 then LayoutResult.reported "border too wide for rectangle"
  else if rect_height < 0 then LayoutResult.reported "border too tall for rectangle"
  else
    let ascent := if values.font_metrics then font_ascent else metrics.ascent
    let descent := if values.font_metrics then font_descent else metrics.descent
    let text_x := if values.font_metrics then 0 else metrics.left_side_bearing
    let text_width := if values.font_metrics then metrics.width
      else metrics.right_side_bearing - metrics.left_side_bearing
    let text_height := ascent + descent
    if text_width = 0 ∨ text_height = 0 then LayoutResult.reported "Text is empty"
    else
      let text_width := if values.oblique
        then text_width + text_height * values.sheer else text_width
      if rect_height = 0 then LayoutResult.raised
      else
        let scale := if text_width / text_height > rect_width / rect_height
          then rect_width / text_width else rect_height / text_height
        let text_off_y := (rect_height - text_height * scale) / 2
        let text_off_x0 := if values.align = "left" then (0:ℚ)
          else if values.align = "center" then (rect_width - text_width * scale) / 2
          else text_width
        let metrics_x_adjust := text_x * scale
        let text_off_x := text_off_x0 - metrics_x_adjust
        let matrix := Matrix.id.translate (text_off_x + r.top_left.x + values.border)
          (text_off_y + r.top_left.y + values.border)
        let matrix := if values.oblique then matrix.sheer (-values.sheer) 0 else matrix
        let matrix := matrix.scale scale scale
        let matrix := if y_invert then matrix.scale 1 (-1)
          else matrix.translate 0 ascent
        LayoutResult.drawn matrix

/-- Layout values for the concrete degenerate runs: border 1, no oblique,
centered, glyph ink metrics. -/
def cexValues : TextValues := TextValues.mk 1 false 0 "center" false

/-- Nonempty ink metrics for the concrete degenerate runs. -/
def cexMetrics : TextMetrics := TextMetrics.mk 0 1 1 1 0

/-- C1 counterexample: the guards reject only strictly negative available
extents, not zero.  With border 1 and rectangle `(0,0)-(2,10)` the available
width is `0`, yet the item is not reported: layout proceeds (at scale 0) and
drawing output is emitted.  With rectangle `(0,0)-(10,2)` the available
height is `0` and the run raises a `ZeroDivisionError` at
`rect_width / rect_height` instead of reporting and skipping. -/
theorem text_into_rect_zero_extent_cex :
    ((Rect.mk (Point.mk 0 0) (Point.mk 2 10)).bottom_right.x -
      (Rect.mk (Point.mk 0 0) (Point.mk 2 10)).top_left.x - cexValues.border * 2 = 0) ∧
    (text_into_rect cexValues true 0 0 cexMetrics
      (Rect.mk (Point.mk 0 0) (Point.mk 2 10))).isReported = false ∧
    (text_into_rect cexValues true 0 0 cexMetrics
      (Rect.mk (Point.mk 0 0) (Point.mk 2 10))).isDrawn = true ∧
    ((Rect.mk (Point.mk 0 0) (Point.mk 10 2)).bottom_right.y -
      (Rect.mk (Point.mk 0 0) (Point.mk 10 2)).top_left.y - cexValues.border * 2 = 0) ∧
    text_into_rect cexValues true 0 0 cexMetrics
      (Rect.mk (Point.mk 0 0) (Point.mk 10 2)) = LayoutResult.raised := by
  refine ⟨?_, ?_, ?_, ?_, ?_⟩ <;>
    norm_num [text_into_rect, cexValues, cexMetrics, LayoutResult.isReported,
      LayoutResult.isDrawn]

/-- C1 amended: `text_into_rect` reports the degenerate item and returns
without emitting drawing output and without raising — and the run continues
with the remaining items — exactly when the available width or height
(rectangle side minus twice the border) is strictly NEGATIVE; a zero
available extent passes the guards (zero width draws at scale 0, zero
height raises at the aspect-ratio division). -/
theorem text_into_rect_negative_reported (values : TextValues) (y_invert : Bool)
    (font_ascent font_descent : ℚ) (metrics : TextMetrics) (r : Rect)
    (h : r.bottom_right.x - r.top_left.x - values.border * 2 < 0 ∨
         r.bottom_right.y - r.top_left.y - values.border * 2 < 0) :
    (text_into_rect values y_invert font_ascent font_descent metrics r).isReported
      = true := by
  rw [text_into_rect]
  rcases h with h | h
  · rw [if_pos h]
    rfl
  · rcases lt_or_le (r.bottom_right.x - r.top_left.x - values.border * 2) 0 with h2 | h2
    · rw [if_pos h2]
      rfl
    · rw [if_neg (not_lt.mpr h2), if_pos h]
      rfl

/-- C1 amended witness: border 1 on the unit square leaves available width
`-1 < 0`, and the item is reported. -/
theorem text_into_rect_negative_reported_witness :
    ((Rect.mk (Point.mk 0 0) (Point.mk 1 1)).bottom_right.x -
       (Rect.mk (Point.mk 0 0) (Point.mk 1 1)).top_left.x - cexValues.border * 2 < 0 ∨
     (Rect.mk (Point.mk 0 0) (Point.mk 1 1)).bottom_right.y -
       (Rect.mk (Point.mk 0 0) (Point.mk 1 1)).top_left.y - cexValues.border * 2 < 0) ∧
    (text_into_rect cexValues true 0 0 cexMetrics
      (Rect.mk (Point.mk 0 0) (Point.mk 1 1))).isReported = true :=
  ⟨Or.inl (by norm_num [cexValues]),
   text_into_rect_negative_reported cexValues true 0 0 cexMetrics
     (Rect.mk (Point.mk 0 0) (Point.mk 1 1)) (Or.inl (by norm_num [cexValues]))⟩

end GcodeText
